/-
Verification of the synapse provider-routing proxy.

Shallow embedding of:
  * src/health.ts   — HealthTracker (per-provider consecutive-failure tracking
                      with cooldown and auto-recovery),
  * src/router.ts   — Router.routeChatCompletions / Router.listAllModels,
  * src/server.ts   — handleChatCompletions request validation,
  * src/provider.ts — withStreamTimeout idle-stream guard.

Mutable Maps become association lists threaded through the operations; wall
clock instants (Date.now(), milliseconds) become an explicit `now : Nat`
argument; upstream HTTP calls become oracle functions supplied as parameters.
-/
import Mathlib

namespace Synapse

/-! ## Configuration (src/config.ts) -/

/-- One provider entry of the validated configuration (`ProviderConfig`).
`maxFailures` and `cooldownSeconds` are optional in the interface; the router
defaults them to 3 and 60 at the call sites (`?? 3`, `?? 60`). -/
structure ProviderConfig where
  name : String
  baseUrl : String
  apiKey : Option String
  models : List String
  maxFailures : Option Nat
  cooldownSeconds : Option Nat
  deriving Repr, DecidableEq

/-! ## HealthTracker (src/health.ts) -/

/-- `ProviderHealth` record: health snapshot of one provider. Timestamps are
milliseconds since epoch; `0` means "not set". -/
structure ProviderHealth where
  name : String
  healthy : Bool
  consecutiveFailures : Nat
  unhealthySince : Nat
  cooldownUntil : Nat
  deriving Repr, DecidableEq

/-- The tracker's `Map<string, ProviderHealth>`, as a list of entries in
insertion order. -/
abbrev HealthState := List ProviderHealth

/-- The constructor `new HealthTracker(providers)`: every configured provider
starts healthy with zero failures and no timestamps. -/
def initHealth (providers : List ProviderConfig) : HealthState :=
  providers.map fun p =>
    { name := p.name, healthy := true, consecutiveFailures := 0
      unhealthySince := 0, cooldownUntil := 0 }

/-- `this.state.get(name)` — lookup of a provider's entry. -/
def lookupHealth (s : HealthState) (providerName : String) :
    Option ProviderHealth :=
  s.find? (fun h => h.name = providerName)

/-- In-place mutation of the entry stored under `providerName` (a no-op when
the name is not tracked, matching `if (!health) return`). -/
def updateHealth (s : HealthState) (providerName : String)
    (f : ProviderHealth → ProviderHealth) : HealthState :=
  s.map fun h => if h.name = providerName then f h else h

/-- `recover(providerName)`: reset the entry to the healthy baseline. -/
def recover (s : HealthState) (providerName : String) : HealthState :=
  updateHealth s providerName fun h =>
    { h with healthy := true, consecutiveFailures := 0
             unhealthySince := 0, cooldownUntil := 0 }

/-- `isHealthy(providerName)` at wall-clock instant `now`. Returns the boolean
together with the possibly-recovered state (the auto-recovery side effect). -/
def isHealthy (s : HealthState) (now : Nat) (providerName : String) :
    Bool × HealthState :=
  match lookupHealth s providerName with
  | none => (false, s)
  | some h =>
    if !h.healthy && h.cooldownUntil > 0 && now ≥ h.cooldownUntil then
      (true, recover s providerName)
    else (h.healthy, s)

/-- `recordSuccess(providerName)`: reset failure count, mark healthy. -/
def recordSuccess (s : HealthState) (providerName : String) : HealthState :=
  updateHealth s providerName fun h =>
    { h with consecutiveFailures := 0, healthy := true
             unhealthySince := 0, cooldownUntil := 0 }

/-- The mutation `recordFailure` applies to the looked-up entry: increment
the consecutive-failure count and, once it reaches the threshold, mark the
provider unhealthy until `now + cooldownSeconds * 1000` (stamping
`unhealthySince` only on the healthy→unhealthy transition). -/
def failBody (now maxFailures cooldownSeconds : Nat)
    (h : ProviderHealth) : ProviderHealth :=
  let f := h.consecutiveFailures + 1
  if f ≥ maxFailures then
    { h with consecutiveFailures := f, healthy := false
             cooldownUntil := now + cooldownSeconds * 1000
             unhealthySince := if h.healthy then now else h.unhealthySince }
  else { h with consecutiveFailures := f }

/-- `recordFailure(providerName, maxFailures, cooldownSeconds)` at instant
`now`. -/
def recordFailure (s : HealthState) (now : Nat) (providerName : String)
    (maxFailures cooldownSeconds : Nat) : HealthState :=
  updateHealth s providerName (failBody now maxFailures cooldownSeconds)

/-- `getAll()`: snapshot of all entries (read-only; the source returns
`Array.from(this.state.values())` without touching the map). -/
def getAll (s : HealthState) : List ProviderHealth := s

/-- `get(providerName)`: read-only single-entry accessor. -/
def getHealth (s : HealthState) (providerName : String) :
    Option ProviderHealth :=
  s.find? (fun h => h.name = providerName)

/-! ### Call traces over a HealthTracker -/

/-- One public call to the tracker. Wall-clock instants ride on the calls that
read the clock (`isHealthy` via recovery check, `recordFailure` via cooldown
stamping). -/
inductive HOp where
  | check (now : Nat) (providerName : String)
  | success (providerName : String)
  | failure (now : Nat) (providerName : String) (maxFailures cooldownSeconds : Nat)
  deriving Repr, DecidableEq

/-- State transition of a single call (the Boolean result of `isHealthy` is
dropped; only the state matters for reachability). -/
def applyOp (s : HealthState) : HOp → HealthState
  | .check now name => (isHealthy s now name).2
  | .success name => recordSuccess s name
  | .failure now name m cd => recordFailure s now name m cd

/-- Run a call trace from a state. -/
def runOps (s : HealthState) (ops : List HOp) : HealthState :=
  ops.foldl applyOp s

/-! ## Provider client results (src/provider.ts) -/

/-- `ProviderResult` — what `chatCompletions` resolves to. The body is kept
abstract as a string tag (stream vs text does not affect routing). -/
structure ProviderResult where
  status : Nat
  headers : List (String × String)
  body : String
  streaming : Bool
  deriving Repr, DecidableEq

/-- Outcome of one `await chatCompletions(provider, body, signal)`:
either a resolved `ProviderResult` or a thrown error (the `catch` arm). -/
inductive CallOutcome where
  | ok (result : ProviderResult)
  | thrown (message : String)
  deriving Repr, DecidableEq

/-! ## Router (src/router.ts) -/

/-- `RouteResult` returned by `routeChatCompletions`. -/
structure RouteResult where
  provider : Option ProviderConfig
  result : Option ProviderResult
  attempted : List String
  skipped : List String
  error : Option String
  deriving Repr, DecidableEq

/-- `servesModel(provider, model)`: wildcard `"*"` matches any model. -/
def servesModel (provider : ProviderConfig) (model : String) : Bool :=
  provider.models.contains "*" || provider.models.contains model

/-- The provider loop of `routeChatCompletions`, walking the remaining
providers with the `attempted` / `skipped` accumulators and the health
tracker threaded through. `call` is the oracle standing for the network
effect of `chatCompletions` (each provider is attempted at most once per
route, so one outcome per provider suffices); `now` stands for `Date.now()`
during this request. -/
def routeLoop (call : ProviderConfig → CallOutcome) (now : Nat)
    (model : String) (providers : List ProviderConfig)
    (health : HealthState) (attempted skipped : List String) :
    RouteResult × HealthState :=
  match providers with
  | [] =>
    ({ provider := none, result := none, attempted := attempted
       skipped := skipped
       error := some ("All providers exhausted for model \x22" ++ model ++ "\x22") },
     health)
  | p :: rest =>
    if !servesModel p model then
      routeLoop call now model rest health attempted
        (skipped ++ [p.name ++ "(no-model)"])
    else
      let checked := isHealthy health now p.name
      if !checked.1 then
        routeLoop call now model rest checked.2 attempted
          (skipped ++ [p.name ++ "(unhealthy)"])
      else
        let attempted1 := attempted ++ [p.name]
        match call p with
        | .ok result =>
          if 200 ≤ result.status ∧ result.status < 500 then
            if result.status = 404 ∧ p.models.contains "*" then
              routeLoop call now model rest checked.2 attempted1 skipped
            else
              ({ provider := some p, result := some result
                 attempted := attempted1, skipped := skipped, error := none },
               recordSuccess checked.2 p.name)
          else
            routeLoop call now model rest
              (recordFailure checked.2 now p.name (p.maxFailures.getD 3)
                (p.cooldownSeconds.getD 60))
              attempted1 skipped
        | .thrown _ =>
          routeLoop call now model rest
            (recordFailure checked.2 now p.name (p.maxFailures.getD 3)
              (p.cooldownSeconds.getD 60))
            attempted1 skipped

/-- `routeChatCompletions(model, body)`: run the loop over the configured
providers with empty accumulators. -/
def routeChatCompletions (call : ProviderConfig → CallOutcome) (now : Nat)
    (providers : List ProviderConfig) (health : HealthState)
    (model : String) : RouteResult × HealthState :=
  routeLoop call now model providers health [] []

/-! ## Router.listAllModels (src/router.ts) -/

/-- One entry of a provider's `/models` listing. -/
structure ModelEntry where
  id : String
  object : String
  owned_by : String
  deriving Repr, DecidableEq

/-- `config.providers.filter((p) => this.health.isHealthy(p.name))` —
`Array.prototype.filter` runs the predicate left to right, and `isHealthy`
may auto-recover entries, so the tracker state is threaded through. -/
def filterHealthy (health : HealthState) (now : Nat) :
    List ProviderConfig → List ProviderConfig × HealthState
  | [] => ([], health)
  | p :: rest =>
    let checked := isHealthy health now p.name
    let tail := filterHealthy checked.2 now rest
    (if checked.1 then p :: tail.1 else tail.1, tail.2)

/-- `Promise.allSettled` reassembly: the fetches complete in arrival order
(`completions`, tagged with their input index), and `allSettled` delivers the
results array indexed by input position, independent of arrival. A missing
index yields `default` (never hit when `completions` covers `0..n-1`). -/
def settleAll {α : Type} (n : Nat) (completions : List (Nat × α))
    (default : α) : List α :=
  (List.range n).map fun i =>
    ((completions.find? (fun c => c.1 = i)).map Prod.snd).getD default

/-- The inner dedup loop: `for (const model of result.value)` with the `seen`
set and `allModels` accumulator. -/
def addModels (seen : List String) (acc : List ModelEntry) :
    List ModelEntry → List String × List ModelEntry
  | [] => (seen, acc)
  | m :: ms =>
    if seen.contains m.id then addModels seen acc ms
    else addModels (m.id :: seen) (acc ++ [m]) ms

/-- The outer dedup loop over the settled results array, in index (config)
order; rejected promises (`status !== "fulfilled"`) are skipped. -/
def dedupResults (seen : List String) (acc : List ModelEntry) :
    List (Option (List ModelEntry)) → List ModelEntry
  | [] => acc
  | none :: rest => dedupResults seen acc rest
  | some ms :: rest =>
    let s2 := addModels seen acc ms
    dedupResults s2.1 s2.2 rest

/-- `listAllModels()`: filter to healthy providers, fetch each provider's
models (`fetch p = none` models a rejected promise), dedup by id in config
order. -/
def listAllModels (fetch : ProviderConfig → Option (List ModelEntry))
    (now : Nat) (providers : List ProviderConfig) (health : HealthState) :
    List ModelEntry × HealthState :=
  let hp := filterHealthy health now providers
  (dedupResults [] [] (hp.1.map fetch), hp.2)

/-- `listAllModels()` with the completion schedule made explicit: `arrival`
lists the per-fetch outcomes in the order the promises settle, each tagged
with its index into the healthy-provider array; `Promise.allSettled`
reassembles them by index before the dedup loop runs. -/
def listAllModelsWithArrival (now : Nat)
    (providers : List ProviderConfig) (health : HealthState)
    (arrival : List (Nat × Option (List ModelEntry))) :
    List ModelEntry × HealthState :=
  let hp := filterHealthy health now providers
  (dedupResults [] [] (settleAll hp.1.length arrival none), hp.2)

/-! ## handleChatCompletions request validation (src/server.ts) -/

/-- `MAX_BODY_BYTES` — maximum request body size (1 MB). -/
def MAX_BODY_BYTES : Nat := 1 * 1024 * 1024

/-- A JSON value as far as the handler's checks observe it: a string, or any
other value together with its JavaScript truthiness. -/
inductive JsonVal where
  | vstr (s : String)
  | vother (truthy : Bool)
  deriving Repr, DecidableEq

/-- The fields of the parsed body the handler reads
(`parsed: { model?: string; stream?: boolean }`). -/
structure ParsedBody where
  model : Option JsonVal
  stream : Option Bool
  deriving Repr, DecidableEq

/-- Result of the validation prefix of `handleChatCompletions`: either an
`openaiError` response produced before the Router is consulted, or the
router invocation `router.routeChatCompletions(parsed.model, body)`. -/
inductive HandleOutcome where
  | rejected (status : Nat) (message : String) (errType : String)
  | routed (model : String) (body : String)
  deriving Repr, DecidableEq

/-- The validation prefix of `handleChatCompletions`. `parseJson` stands for
`JSON.parse` (`none` = throw); `bodyRead` for `await request.text()`
(`none` = throw). The guard `!parsed.model || typeof parsed.model !==
"string"` passes exactly when `model` is a non-empty string (the empty
string is falsy in JavaScript). -/
def handleChatCompletions (parseJson : String → Option ParsedBody)
    (method : String) (bodyRead : Option String) : HandleOutcome :=
  if method ≠ "POST" then
    .rejected 405 "Method not allowed" "invalid_request_error"
  else
    match bodyRead with
    | none => .rejected 400 "Failed to read request body" "invalid_request_error"
    | some body =>
      if body.length > MAX_BODY_BYTES then
        .rejected 413 "Request body too large" "invalid_request_error"
      else
        match parseJson body with
        | none => .rejected 400 "Invalid JSON body" "invalid_request_error"
        | some parsed =>
          match parsed.model with
          | some (.vstr s) =>
            if s = "" then
              .rejected 400 "'model' is required and must be a string"
                "invalid_request_error"
            else .routed s body
          | _ =>
            .rejected 400 "'model' is required and must be a string"
              "invalid_request_error"

/-! ## withStreamTimeout idle-stream guard (src/provider.ts) -/

/-- `STREAM_IDLE_TIMEOUT_MS` — 30 seconds between chunks. -/
def STREAM_IDLE_TIMEOUT_MS : Nat := 30000

/-- State of the guard wrapped around a streaming body: the pending
`setTimeout` deadline (`none` after `clearTimeout`), whether
`controller.abort()` has been called, and the chunks enqueued downstream. -/
structure GuardState where
  deadline : Option Nat
  aborted : Bool
  delivered : List String
  deriving Repr, DecidableEq

/-- `resetTimer()` at instant `t`: `clearTimeout(timer)` then
`timer = setTimeout(() => controller.abort(), idleMs)`. -/
def resetTimer (t idleMs : Nat) (g : GuardState) : GuardState :=
  { g with deadline := some (t + idleMs) }

/-- Events the platform delivers to the transformer callbacks, each at a
wall-clock instant. `flushEnd` is normal upstream completion (the `flush`
hook); `cancelled` is cancellation of the readable side or abort of the
writable side — downstream disconnect or upstream error — which invokes the
transformer's `cancel` hook per the WHATWG Streams standard; `timerFire` is
the scheduled timeout firing at its deadline. -/
inductive StreamEvent where
  | start (t : Nat)
  | chunk (t : Nat) (data : String)
  | flushEnd (t : Nat)
  | cancelled (t : Nat)
  | timerFire (t : Nat)
  deriving Repr, DecidableEq

/-- One transformer callback / timer delivery. A `timerFire` only takes
effect when the pending deadline is exactly its instant (a cleared or reset
timeout never fires). -/
def guardStep (idleMs : Nat) (g : GuardState) : StreamEvent → GuardState
  | .start t => resetTimer t idleMs g
  | .chunk t data =>
    { resetTimer t idleMs g with delivered := g.delivered ++ [data] }
  | .flushEnd _ => { g with deadline := none }
  | .cancelled _ => { g with deadline := none }
  | .timerFire t =>
    if g.deadline = some t then { g with deadline := none, aborted := true }
    else g

/-- Run the guard over a sequence of delivered events. -/
def runGuard (idleMs : Nat) (g : GuardState) (events : List StreamEvent) :
    GuardState :=
  events.foldl (guardStep idleMs) g

/-- Initial guard state, before `start()` runs. -/
def initGuard : GuardState :=
  { deadline := none, aborted := false, delivered := [] }

/-! ## Helper lemmas about the HealthTracker -/

theorem lookupHealth_updateHealth (s : HealthState) (n n' : String)
    (f : ProviderHealth → ProviderHealth) (hf : ∀ h, (f h).name = h.name) :
    lookupHealth (updateHealth s n f) n' =
      (lookupHealth s n').map (fun h => if h.name = n then f h else h) := by
  induction s with
  | nil => rfl
  | cons h t ih =>
    have hname : (if h.name = n then f h else h).name = h.name := by
      by_cases hn : h.name = n <;> simp [hn, hf]
    simp only [lookupHealth, updateHealth, List.map_cons, List.find?_cons]
      at ih ⊢
    by_cases hh : h.name = n'
    · have p1 : decide ((if h.name = n then f h else h).name = n') = true := by
        have hx : (if h.name = n then f h else h).name = n' := hname.trans hh
        simp [hx]
      have p2 : decide (h.name = n') = true := by simp [hh]
      simp only [p1, p2]
      rfl
    · have p1 : decide ((if h.name = n then f h else h).name = n') = false := by
        simp [hname, hh]
      have p2 : decide (h.name = n') = false := by simp [hh]
      simp only [p1, p2]
      exact ih

theorem lookupHealth_recordSuccess (s : HealthState) (n : String) :
    lookupHealth (recordSuccess s n) n =
      (lookupHealth s n).map (fun h =>
        { h with consecutiveFailures := 0, healthy := true
                 unhealthySince := 0, cooldownUntil := 0 }) := by
  have := lookupHealth_updateHealth s n n
    (fun h => { h with consecutiveFailures := 0, healthy := true
                       unhealthySince := 0, cooldownUntil := 0 })
    (fun h => rfl)
  rw [recordSuccess, this]
  cases hl : lookupHealth s n with
  | none => rfl
  | some e =>
    have : e.name = n := by
      have := List.find?_some hl
      simpa using this
    simp [this]

theorem lookupHealth_recover (s : HealthState) (n : String) :
    lookupHealth (recover s n) n =
      (lookupHealth s n).map (fun h =>
        { h with healthy := true, consecutiveFailures := 0
                 unhealthySince := 0, cooldownUntil := 0 }) := by
  have := lookupHealth_updateHealth s n n
    (fun h => { h with healthy := true, consecutiveFailures := 0
                       unhealthySince := 0, cooldownUntil := 0 })
    (fun h => rfl)
  rw [recover, this]
  cases hl : lookupHealth s n with
  | none => rfl
  | some e =>
    have : e.name = n := by
      have := List.find?_some hl
      simpa using this
    simp [this]

theorem failBody_name (now m cd : Nat) (h : ProviderHealth) :
    (failBody now m cd h).name = h.name := by
  by_cases hc : h.consecutiveFailures + 1 ≥ m <;> simp [failBody, hc]

theorem lookupHealth_recordFailure (s : HealthState) (now : Nat) (n : String)
    (m cd : Nat) :
    lookupHealth (recordFailure s now n m cd) n =
      (lookupHealth s n).map (failBody now m cd) := by
  have := lookupHealth_updateHealth s n n (failBody now m cd)
    (failBody_name now m cd)
  rw [recordFailure, this]
  cases hl : lookupHealth s n with
  | none => rfl
  | some e =>
    have : e.name = n := by
      have := List.find?_some hl
      simpa using this
    simp [this]

/-- Repeated `recordFailure` calls for the same provider with a fixed
threshold and cooldown, at the given sequence of instants. -/
def iterFailures (s : HealthState) (n : String) (m cd : Nat)
    (times : List Nat) : HealthState :=
  times.foldl (fun st t => recordFailure st t n m cd) s

theorem lookupHealth_iterFailures_below (s : HealthState) (n : String)
    (m cd : Nat) (times : List Nat) (e : ProviderHealth)
    (hl : lookupHealth s n = some e)
    (hbound : e.consecutiveFailures + times.length < m) :
    lookupHealth (iterFailures s n m cd times) n =
      some { e with consecutiveFailures := e.consecutiveFailures + times.length } := by
  induction times generalizing s e with
  | nil =>
    simpa [iterFailures] using hl
  | cons t ts ih =>
    have hlen : (t :: ts).length = ts.length + 1 := by simp
    have hstep : lookupHealth (recordFailure s t n m cd) n =
        some { e with consecutiveFailures := e.consecutiveFailures + 1 } := by
      rw [lookupHealth_recordFailure, hl]
      have : ¬ e.consecutiveFailures + 1 ≥ m := by omega
      simp [failBody, this]
    have hb2 : ({ e with consecutiveFailures := e.consecutiveFailures + 1 } :
        ProviderHealth).consecutiveFailures + ts.length < m := by
      show e.consecutiveFailures + 1 + ts.length < m
      omega
    have := ih (recordFailure s t n m cd)
      { e with consecutiveFailures := e.consecutiveFailures + 1 } hstep hb2
    have harr : e.consecutiveFailures + 1 + ts.length =
        e.consecutiveFailures + (t :: ts).length := by
      simp only [List.length_cons]; omega
    simpa [iterFailures, harr] using this

theorem lookupHealth_iterFailures_trip (s : HealthState) (n : String)
    (m cd : Nat) (hm : 1 ≤ m) (ts : List Nat) (t : Nat) (e : ProviderHealth)
    (hl : lookupHealth s n = some e) (hh : e.healthy = true)
    (hz : e.consecutiveFailures = 0) (hlen : ts.length = m - 1) :
    lookupHealth (iterFailures s n m cd (ts ++ [t])) n =
      some { e with consecutiveFailures := m, healthy := false
                    cooldownUntil := t + cd * 1000, unhealthySince := t } := by
  have h1 : lookupHealth (iterFailures s n m cd ts) n =
      some { e with consecutiveFailures := e.consecutiveFailures + ts.length } :=
    lookupHealth_iterFailures_below s n m cd ts e hl (by omega)
  have hsplit : iterFailures s n m cd (ts ++ [t]) =
      recordFailure (iterFailures s n m cd ts) t n m cd := by
    simp [iterFailures, List.foldl_append]
  rw [hsplit, lookupHealth_recordFailure, h1]
  have htrip : ({ e with consecutiveFailures := e.consecutiveFailures + ts.length } :
      ProviderHealth).consecutiveFailures + 1 ≥ m := by
    show e.consecutiveFailures + ts.length + 1 ≥ m
    omega
  have hfail : e.consecutiveFailures + ts.length + 1 = m := by omega
  simp [failBody, htrip, hh, hfail]

/-! ## Concrete providers used for evaluation -/

/-- Provider serving only model `"x"` (scenario provider `A`). -/
def pA : ProviderConfig :=
  { name := "A", baseUrl := "http://a.local/v1", apiKey := none
    models := ["x"], maxFailures := some 2, cooldownSeconds := some 60 }

/-- Wildcard provider `B`. -/
def pB : ProviderConfig :=
  { name := "B", baseUrl := "http://b.local/v1", apiKey := none
    models := ["*"], maxFailures := none, cooldownSeconds := none }

/-- Wildcard provider `C`. -/
def pC : ProviderConfig :=
  { name := "C", baseUrl := "http://c.local/v1", apiKey := none
    models := ["*"], maxFailures := none, cooldownSeconds := none }

/-! ## C10 — recordFailure on an untracked name is a no-op -/

/-- C10: calling `recordFailure` with a provider name that is not in the
tracker leaves the entire state unchanged, for any `maxFailures` and
`cooldownSeconds`: no entry is created and no existing entry is modified. -/
theorem recordFailure_unknown_noop (s : HealthState) (now : Nat) (n : String)
    (m cd : Nat) (hl : lookupHealth s n = none) :
    recordFailure s now n m cd = s := by
  have hall : ∀ e ∈ s, ¬ (e.name = n) := by
    intro e he
    have h2 := List.find?_eq_none.mp hl e he
    simpa using h2
  simp only [recordFailure, updateHealth]
  have : ∀ e ∈ s,
      (if e.name = n then failBody now m cd e else e) = e := by
    intro e he
    simp [hall e he]
  rw [List.map_congr_left this]
  simp

/-- C10 witness: a tracker for provider `"A"` is untouched by a failure
recorded against `"B"`. -/
theorem recordFailure_unknown_noop_witness :
    recordFailure (initHealth [pA]) 1000 "B" 3 60 = initHealth [pA] :=
  recordFailure_unknown_noop (initHealth [pA]) 1000 "B" 3 60 (by decide)

/-! ## C3 — exactly maxFailures consecutive failures trip the breaker -/

/-- C3: from a fresh tracked entry (healthy, zero failures) and any threshold
`maxFailures ≥ 1`: strictly fewer than `maxFailures` consecutive
`recordFailure` calls leave `isHealthy` true; after exactly `maxFailures`
such calls (the last at instant `t`), `isHealthy` returns false at every
check instant before the cooldown expiry `t + cooldownSeconds * 1000`. -/
theorem maxFailures_threshold (s : HealthState) (n : String)
    (e : ProviderHealth) (hl : lookupHealth s n = some e)
    (hh : e.healthy = true) (hz : e.consecutiveFailures = 0)
    (m cd : Nat) (hm : 1 ≤ m) :
    (∀ times : List Nat, times.length < m → ∀ tcheck : Nat,
        (isHealthy (iterFailures s n m cd times) tcheck n).1 = true) ∧
    (∀ ts : List Nat, ∀ t : Nat, ts.length = m - 1 → ∀ tcheck : Nat,
        tcheck < t + cd * 1000 →
        (isHealthy (iterFailures s n m cd (ts ++ [t])) tcheck n).1 = false) := by
  constructor
  · intro times hlt tcheck
    have h1 := lookupHealth_iterFailures_below s n m cd times e hl (by omega)
    simp only [isHealthy, h1]
    simp [hh]
  · intro ts t hlen tcheck hcool
    have h1 := lookupHealth_iterFailures_trip s n m cd hm ts t e hl hh hz hlen
    simp only [isHealthy, h1]
    have hnot : ¬ tcheck ≥ t + cd * 1000 := by omega
    simp [hnot]

/-- C3 witness: with `maxFailures = 2`, one failure keeps the provider
healthy and a second failure makes `isHealthy` false before the cooldown
expiry. -/
theorem maxFailures_threshold_witness :
    (isHealthy (iterFailures (initHealth [pA]) "A" 2 60 [1000]) 1500 "A").1
        = true ∧
    (isHealthy (iterFailures (initHealth [pA]) "A" 2 60 [1000, 2000]) 3000
        "A").1 = false := by
  have h := maxFailures_threshold (initHealth [pA]) "A"
    { name := "A", healthy := true, consecutiveFailures := 0
      unhealthySince := 0, cooldownUntil := 0 } (by decide) rfl rfl 2 60
    (by decide)
  exact ⟨h.1 [1000] (by decide) 1500, h.2 [1000] 2000 (by decide) 3000 (by decide)⟩

/-! ## C4 — cooldown expiry recovery happens in isHealthy only -/

/-- C4: for an unhealthy tracked provider whose set cooldown instant is at or
before `now`, `isHealthy` returns true, its side effect is exactly
`recover` (failure count 0, healthy, cooldown cleared), and the read-only
accessors `get` / `getAll` still expose the un-recovered snapshot: they never
perform the recovery transition. -/
theorem cooldownExpiry_recovery (s : HealthState) (now : Nat) (n : String)
    (e : ProviderHealth) (hl : lookupHealth s n = some e)
    (hunhealthy : e.healthy = false) (hset : 0 < e.cooldownUntil)
    (hpast : e.cooldownUntil ≤ now) :
    (isHealthy s now n).1 = true ∧
    (isHealthy s now n).2 = recover s n ∧
    lookupHealth (isHealthy s now n).2 n =
      some { e with healthy := true, consecutiveFailures := 0
                    unhealthySince := 0, cooldownUntil := 0 } ∧
    getHealth s n = some e ∧ getAll s = s := by
  have hcond : (!e.healthy && decide (e.cooldownUntil > 0)
      && decide (now ≥ e.cooldownUntil)) = true := by
    simp [hunhealthy, hset, hpast]
  refine ⟨?_, ?_, ?_, hl, rfl⟩
  · simp [isHealthy, hl, hcond]
  · simp [isHealthy, hl, hcond]
  · have h2 : (isHealthy s now n).2 = recover s n := by
      simp [isHealthy, hl, hcond]
    rw [h2, lookupHealth_recover, hl]
    rfl

/-- A concrete unhealthy snapshot whose cooldown instant 100 has passed by
instant 200. -/
def staleEntry : ProviderHealth :=
  { name := "A", healthy := false, consecutiveFailures := 3
    unhealthySince := 50, cooldownUntil := 100 }

/-- C4 witness: the concrete stale entry recovers through `isHealthy` at
`now = 200` while `get` still shows the stale snapshot. -/
theorem cooldownExpiry_recovery_witness :
    (isHealthy [staleEntry] 200 "A").1 = true ∧
    (isHealthy [staleEntry] 200 "A").2 = recover [staleEntry] "A" ∧
    lookupHealth (isHealthy [staleEntry] 200 "A").2 "A" =
      some { staleEntry with healthy := true, consecutiveFailures := 0
                             unhealthySince := 0, cooldownUntil := 0 } ∧
    getHealth [staleEntry] "A" = some staleEntry ∧
    getAll [staleEntry] = [staleEntry] :=
  cooldownExpiry_recovery [staleEntry] 200 "A" staleEntry (by decide) rfl
    (by decide) (by decide)

/-! ## C1 — the tracker invariant over reachable states -/

/-- The per-entry invariant that actually holds on reachable states when all
`recordFailure` calls use the single threshold `M`: an unhealthy entry always
has its cooldown instant set, and a healthy entry's consecutive-failure count
stays strictly below the threshold. -/
def healthInvariant (M : Nat) (s : HealthState) : Prop :=
  ∀ e ∈ s, (e.healthy = false → e.cooldownUntil ≠ 0) ∧
           (e.healthy = true → e.consecutiveFailures < M)

/-- Trace side conditions for the invariant: every failure is recorded with
threshold `M` at a positive wall-clock instant (as `Date.now()` always is). -/
def uniformFailures (M : Nat) : HOp → Bool
  | .failure now _ m _ => m == M && decide (0 < now)
  | _ => true

theorem healthInvariant_updateHealth {M : Nat} {s : HealthState} {n : String}
    {f : ProviderHealth → ProviderHealth} (hs : healthInvariant M s)
    (hf : ∀ e ∈ s,
      ((f e).healthy = false → (f e).cooldownUntil ≠ 0) ∧
      ((f e).healthy = true → (f e).consecutiveFailures < M)) :
    healthInvariant M (updateHealth s n f) := by
  intro e' he'
  simp only [updateHealth, List.mem_map] at he'
  obtain ⟨e, he, rfl⟩ := he'
  by_cases hn : e.name = n
  · simpa [hn] using hf e he
  · simpa [hn] using hs e he

theorem healthInvariant_applyOp {M : Nat} (hM : 1 ≤ M) {s : HealthState}
    {op : HOp} (hop : uniformFailures M op = true)
    (hs : healthInvariant M s) : healthInvariant M (applyOp s op) := by
  cases op with
  | check now name =>
    have hcases : (isHealthy s now name).2 = s ∨
        (isHealthy s now name).2 = recover s name := by
      unfold isHealthy
      cases lookupHealth s name with
      | none => exact Or.inl rfl
      | some h =>
        by_cases hb : (!h.healthy && decide (h.cooldownUntil > 0)
            && decide (now ≥ h.cooldownUntil)) = true
        · right; simp [hb]
        · left; simp [hb]
    show healthInvariant M (isHealthy s now name).2
    rcases hcases with hc | hc
    · rw [hc]; exact hs
    · rw [hc]
      exact healthInvariant_updateHealth hs (fun e _ => by
        constructor
        · intro h; simp at h
        · intro _; show 0 < M; omega)
  | success name =>
    exact healthInvariant_updateHealth hs (fun e _ => by
      constructor
      · intro h; simp at h
      · intro _; show 0 < M; omega)
  | failure now name m cd =>
    have hm : m = M ∧ 0 < now := by
      simp [uniformFailures] at hop
      exact hop
    obtain ⟨hmM, hnow⟩ := hm
    refine healthInvariant_updateHealth hs (fun e he => ?_)
    by_cases hc : e.consecutiveFailures + 1 ≥ m
    · constructor
      · intro _
        simp only [failBody, hc, if_pos]
        show now + cd * 1000 ≠ 0
        omega
      · intro habs
        simp [failBody, hc] at habs
    · constructor
      · intro hh
        have he2 : e.healthy = false := by
          simpa [failBody, hc] using hh
        have := (hs e he).1 he2
        simpa [failBody, hc] using this
      · intro hh
        simp only [failBody, hc, if_neg]
        show e.consecutiveFailures + 1 < M
        omega

/-- C1 (amended): every state reachable from construction by any sequence of
`isHealthy` / `recordSuccess` / `recordFailure` calls — all failures recorded
with one threshold `maxFailures = M ≥ 1` at positive instants — satisfies:
`healthy = false` implies `cooldownUntil` is set (non-zero), and
`consecutiveFailures < M` whenever `healthy = true`. -/
theorem healthTracker_invariant (ps : List ProviderConfig) (ops : List HOp)
    (M : Nat) (hM : 1 ≤ M) (hops : ops.all (uniformFailures M) = true) :
    healthInvariant M (runOps (initHealth ps) ops) := by
  have hinit : healthInvariant M (initHealth ps) := by
    intro e he
    simp only [initHealth, List.mem_map] at he
    obtain ⟨p, _, rfl⟩ := he
    exact ⟨fun h => by simp at h, fun _ => by show 0 < M; omega⟩
  have main : ∀ (l : List HOp) (s : HealthState),
      l.all (uniformFailures M) = true → healthInvariant M s →
      healthInvariant M (runOps s l) := by
    intro l
    induction l with
    | nil => intro s _ hs; exact hs
    | cons op rest ih =>
      intro s hall hs
      simp only [List.all_cons, Bool.and_eq_true] at hall
      exact ih (applyOp s op) hall.2 (healthInvariant_applyOp hM hall.1 hs)
  exact main ops (initHealth ps) hops hinit

/-- C1 counterexample: one `recordFailure` below the threshold (here 3)
reaches a state whose entry is still healthy with `consecutiveFailures = 1`,
refuting "`consecutiveFailures == 0` whenever `healthy == true`". -/
theorem healthTracker_invariant_cex :
    ((lookupHealth (runOps (initHealth [pA]) [HOp.failure 1000 "A" 3 60])
        "A").map (fun e => (e.healthy, e.consecutiveFailures)))
      = some (true, 1) := by decide

/-- C1 witness: the invariant instantiated on the concrete trace of two
failures with threshold 2 — the resulting entry is unhealthy with its
cooldown instant set to 62000. -/
theorem healthTracker_invariant_witness :
    (({ name := "A", healthy := false, consecutiveFailures := 2
        , unhealthySince := 2000, cooldownUntil := 62000 } :
        ProviderHealth).healthy = false →
      ({ name := "A", healthy := false, consecutiveFailures := 2
         , unhealthySince := 2000, cooldownUntil := 62000 } :
         ProviderHealth).cooldownUntil ≠ 0) ∧
    (({ name := "A", healthy := false, consecutiveFailures := 2
        , unhealthySince := 2000, cooldownUntil := 62000 } :
        ProviderHealth).healthy = true →
      ({ name := "A", healthy := false, consecutiveFailures := 2
         , unhealthySince := 2000, cooldownUntil := 62000 } :
         ProviderHealth).consecutiveFailures < 2) :=
  healthTracker_invariant [pA]
    [HOp.failure 1000 "A" 2 60, HOp.failure 2000 "A" 2 60] 2 (by decide)
    (by decide)
    { name := "A", healthy := false, consecutiveFailures := 2
      unhealthySince := 2000, cooldownUntil := 62000 }
    (by decide)

/-! ## Step equations for the routing loop -/

theorem routeLoop_noModel (call : ProviderConfig → CallOutcome) (now : Nat)
    (model : String) (p : ProviderConfig) (rest : List ProviderConfig)
    (health : HealthState) (attempted skipped : List String)
    (hserve : servesModel p model = false) :
    routeLoop call now model (p :: rest) health attempted skipped =
      routeLoop call now model rest health attempted
        (skipped ++ [p.name ++ "(no-model)"]) := by
  simp only [routeLoop, hserve]
  rfl

theorem routeLoop_unhealthy (call : ProviderConfig → CallOutcome) (now : Nat)
    (model : String) (p : ProviderConfig) (rest : List ProviderConfig)
    (health : HealthState) (attempted skipped : List String)
    (hserve : servesModel p model = true)
    (hunhealthy : (isHealthy health now p.name).1 = false) :
    routeLoop call now model (p :: rest) health attempted skipped =
      routeLoop call now model rest (isHealthy health now p.name).2 attempted
        (skipped ++ [p.name ++ "(unhealthy)"]) := by
  simp only [routeLoop, hserve, hunhealthy]
  rfl

theorem routeLoop_softMiss (call : ProviderConfig → CallOutcome) (now : Nat)
    (model : String) (p : ProviderConfig) (rest : List ProviderConfig)
    (health : HealthState) (attempted skipped : List String)
    (hserve : servesModel p model = true)
    (hhealthy : (isHealthy health now p.name).1 = true)
    (r : ProviderResult) (hcall : call p = .ok r)
    (hlo : 200 ≤ r.status) (hhi : r.status < 500)
    (h404 : r.status = 404) (hwild : p.models.contains "*" = true) :
    routeLoop call now model (p :: rest) health attempted skipped =
      routeLoop call now model rest (isHealthy health now p.name).2
        (attempted ++ [p.name]) skipped := by
  simp only [routeLoop, hserve, hhealthy, hcall, hlo, hhi, h404, hwild]
  simp

theorem routeLoop_return (call : ProviderConfig → CallOutcome) (now : Nat)
    (model : String) (p : ProviderConfig) (rest : List ProviderConfig)
    (health : HealthState) (attempted skipped : List String)
    (hserve : servesModel p model = true)
    (hhealthy : (isHealthy health now p.name).1 = true)
    (r : ProviderResult) (hcall : call p = .ok r)
    (hlo : 200 ≤ r.status) (hhi : r.status < 500)
    (hnotmiss : ¬ (r.status = 404 ∧ p.models.contains "*" = true)) :
    routeLoop call now model (p :: rest) health attempted skipped =
      ({ provider := some p, result := some r
         attempted := attempted ++ [p.name], skipped := skipped
         error := none },
       recordSuccess (isHealthy health now p.name).2 p.name) := by
  simp only [routeLoop, hserve, hhealthy, hcall]
  simp [hlo, hhi]
  intro h1 h2
  exact absurd ⟨h1, by simpa using h2⟩ hnotmiss

theorem routeLoop_serverError (call : ProviderConfig → CallOutcome)
    (now : Nat) (model : String) (p : ProviderConfig)
    (rest : List ProviderConfig) (health : HealthState)
    (attempted skipped : List String)
    (hserve : servesModel p model = true)
    (hhealthy : (isHealthy health now p.name).1 = true)
    (r : ProviderResult) (hcall : call p = .ok r)
    (hrange : ¬ (200 ≤ r.status ∧ r.status < 500)) :
    routeLoop call now model (p :: rest) health attempted skipped =
      routeLoop call now model rest
        (recordFailure (isHealthy health now p.name).2 now p.name
          (p.maxFailures.getD 3) (p.cooldownSeconds.getD 60))
        (attempted ++ [p.name]) skipped := by
  simp only [routeLoop, hserve, hhealthy, hcall]
  simp [hrange]

theorem routeLoop_thrown (call : ProviderConfig → CallOutcome) (now : Nat)
    (model : String) (p : ProviderConfig) (rest : List ProviderConfig)
    (health : HealthState) (attempted skipped : List String)
    (hserve : servesModel p model = true)
    (hhealthy : (isHealthy health now p.name).1 = true)
    (msg : String) (hcall : call p = .thrown msg) :
    routeLoop call now model (p :: rest) health attempted skipped =
      routeLoop call now model rest
        (recordFailure (isHealthy health now p.name).2 now p.name
          (p.maxFailures.getD 3) (p.cooldownSeconds.getD 60))
        (attempted ++ [p.name]) skipped := by
  simp only [routeLoop, hserve, hhealthy, hcall]
  simp

/-- The `attempted` accumulator only ever grows: whatever the loop returns
extends the names accumulated so far. -/
theorem routeLoop_attempted_extends (call : ProviderConfig → CallOutcome)
    (now : Nat) (model : String) :
    ∀ (providers : List ProviderConfig) (health : HealthState)
      (attempted skipped : List String),
      ∃ tail, (routeLoop call now model providers health attempted
          skipped).1.attempted = attempted ++ tail := by
  intro providers
  induction providers with
  | nil =>
    intro health att sk
    exact ⟨[], by simp [routeLoop]⟩
  | cons p rest ih =>
    intro health att sk
    by_cases hs : servesModel p model = true
    · by_cases hh : (isHealthy health now p.name).1 = true
      · cases hc : call p with
        | ok r =>
          by_cases hrange : 200 ≤ r.status ∧ r.status < 500
          · by_cases hmiss : r.status = 404 ∧ p.models.contains "*" = true
            · rw [routeLoop_softMiss call now model p rest health att sk hs hh
                r hc hrange.1 hrange.2 hmiss.1 hmiss.2]
              obtain ⟨tail, ht⟩ := ih (isHealthy health now p.name).2
                (att ++ [p.name]) sk
              exact ⟨[p.name] ++ tail, by rw [ht]; simp⟩
            · rw [routeLoop_return call now model p rest health att sk hs hh
                r hc hrange.1 hrange.2 hmiss]
              exact ⟨[p.name], rfl⟩
          · rw [routeLoop_serverError call now model p rest health att sk hs hh
                r hc hrange]
            obtain ⟨tail, ht⟩ := ih _ (att ++ [p.name]) sk
            exact ⟨[p.name] ++ tail, by rw [ht]; simp⟩
        | thrown msg =>
          rw [routeLoop_thrown call now model p rest health att sk hs hh msg hc]
          obtain ⟨tail, ht⟩ := ih _ (att ++ [p.name]) sk
          exact ⟨[p.name] ++ tail, by rw [ht]; simp⟩
      · have hh' : (isHealthy health now p.name).1 = false := by
          simpa using hh
        rw [routeLoop_unhealthy call now model p rest health att sk hs hh']
        exact ih _ att _
    · have hs' : servesModel p model = false := by simpa using hs
      rw [routeLoop_noModel call now model p rest health att sk hs']
      exact ih _ att _

/-- Every name the loop reports as attempted was already accumulated or
belongs to a listed provider that serves the requested model. -/
theorem routeLoop_attempted_mem (call : ProviderConfig → CallOutcome)
    (now : Nat) (model : String) :
    ∀ (providers : List ProviderConfig) (health : HealthState)
      (attempted skipped : List String) (name : String),
      name ∈ (routeLoop call now model providers health attempted
          skipped).1.attempted →
      name ∈ attempted ∨
        ∃ q, q ∈ providers ∧ q.name = name ∧ servesModel q model = true := by
  intro providers
  induction providers with
  | nil =>
    intro health att sk name hmem
    simp [routeLoop] at hmem
    exact Or.inl hmem
  | cons p rest ih =>
    intro health att sk name hmem
    have push : name ∈ att ++ [p.name] ∨
        (∃ q, q ∈ rest ∧ q.name = name ∧ servesModel q model = true) →
        servesModel p model = true →
        name ∈ att ∨
          ∃ q, q ∈ p :: rest ∧ q.name = name ∧ servesModel q model = true := by
      intro hcase hs
      rcases hcase with hin | ⟨q, hq, hqn, hqs⟩
      · rcases List.mem_append.mp hin with h1 | h1
        · exact Or.inl h1
        · refine Or.inr ⟨p, List.mem_cons_self p rest, ?_, hs⟩
          have : name = p.name := by simpa using h1
          exact this.symm
      · exact Or.inr ⟨q, List.mem_cons_of_mem p hq, hqn, hqs⟩
    by_cases hs : servesModel p model = true
    · by_cases hh : (isHealthy health now p.name).1 = true
      · cases hc : call p with
        | ok r =>
          by_cases hrange : 200 ≤ r.status ∧ r.status < 500
          · by_cases hmiss : r.status = 404 ∧ p.models.contains "*" = true
            · rw [routeLoop_softMiss call now model p rest health att sk hs hh
                r hc hrange.1 hrange.2 hmiss.1 hmiss.2] at hmem
              exact push (ih _ _ _ name hmem) hs
            · rw [routeLoop_return call now model p rest health att sk hs hh
                r hc hrange.1 hrange.2 hmiss] at hmem
              exact push (Or.inl hmem) hs
          · rw [routeLoop_serverError call now model p rest health att sk hs hh
                r hc hrange] at hmem
            exact push (ih _ _ _ name hmem) hs
        | thrown msg =>
          rw [routeLoop_thrown call now model p rest health att sk hs hh
            msg hc] at hmem
          exact push (ih _ _ _ name hmem) hs
      · have hh' : (isHealthy health now p.name).1 = false := by
          simpa using hh
        rw [routeLoop_unhealthy call now model p rest health att sk hs hh']
          at hmem
        rcases ih _ _ _ name hmem with h1 | ⟨q, hq, hqn, hqs⟩
        · exact Or.inl h1
        · exact Or.inr ⟨q, List.mem_cons_of_mem p hq, hqn, hqs⟩
    · have hs' : servesModel p model = false := by simpa using hs
      rw [routeLoop_noModel call now model p rest health att sk hs'] at hmem
      rcases ih _ _ _ name hmem with h1 | ⟨q, hq, hqn, hqs⟩
      · exact Or.inl h1
      · exact Or.inr ⟨q, List.mem_cons_of_mem p hq, hqn, hqs⟩

/-- The loop's outcome depends on the upstream oracle only at providers that
serve the requested model: the chat-completions call is never issued for a
provider that fails the model check. -/
theorem routeLoop_call_agree (now : Nat) (model : String) :
    ∀ (providers : List ProviderConfig)
      (call1 call2 : ProviderConfig → CallOutcome) (health : HealthState)
      (attempted skipped : List String),
      (∀ q ∈ providers, servesModel q model = true → call1 q = call2 q) →
      routeLoop call1 now model providers health attempted skipped =
        routeLoop call2 now model providers health attempted skipped := by
  intro providers
  induction providers with
  | nil => intro call1 call2 health att sk _; rfl
  | cons p rest ih =>
    intro call1 call2 health att sk hagree
    have hrest : ∀ q ∈ rest, servesModel q model = true → call1 q = call2 q :=
      fun q hq => hagree q (List.mem_cons_of_mem p hq)
    by_cases hs : servesModel p model = true
    · have hcc : call1 p = call2 p := hagree p (List.mem_cons_self p rest) hs
      by_cases hh : (isHealthy health now p.name).1 = true
      · cases hc : call2 p with
        | ok r =>
          have hc1 : call1 p = .ok r := hcc.trans hc
          by_cases hrange : 200 ≤ r.status ∧ r.status < 500
          · by_cases hmiss : r.status = 404 ∧ p.models.contains "*" = true
            · rw [routeLoop_softMiss call1 now model p rest health att sk hs hh
                  r hc1 hrange.1 hrange.2 hmiss.1 hmiss.2,
                routeLoop_softMiss call2 now model p rest health att sk hs hh
                  r hc hrange.1 hrange.2 hmiss.1 hmiss.2]
              exact ih call1 call2 _ _ _ hrest
            · rw [routeLoop_return call1 now model p rest health att sk hs hh
                  r hc1 hrange.1 hrange.2 hmiss,
                routeLoop_return call2 now model p rest health att sk hs hh
                  r hc hrange.1 hrange.2 hmiss]
          · rw [routeLoop_serverError call1 now model p rest health att sk hs
                  hh r hc1 hrange,
                routeLoop_serverError call2 now model p rest health att sk hs
                  hh r hc hrange]
            exact ih call1 call2 _ _ _ hrest
        | thrown msg =>
          have hc1 : call1 p = .thrown msg := hcc.trans hc
          rw [routeLoop_thrown call1 now model p rest health att sk hs hh
              msg hc1,
            routeLoop_thrown call2 now model p rest health att sk hs hh
              msg hc]
          exact ih call1 call2 _ _ _ hrest
      · have hh' : (isHealthy health now p.name).1 = false := by simpa using hh
        rw [routeLoop_unhealthy call1 now model p rest health att sk hs hh',
          routeLoop_unhealthy call2 now model p rest health att sk hs hh']
        exact ih call1 call2 _ _ _ hrest
    · have hs' : servesModel p model = false := by simpa using hs
      rw [routeLoop_noModel call1 now model p rest health att sk hs',
        routeLoop_noModel call2 now model p rest health att sk hs']
      exact ih call1 call2 _ _ _ hrest

/-! ## Concrete oracles used for evaluation -/

/-- A non-streaming upstream result with the given status. -/
def okResult (status : Nat) : ProviderResult :=
  { status := status, headers := [("content-type", "application/json")]
    body := "{}", streaming := false }

/-- Scenario oracle: `B` answers 404, `C` answers 200, anything else throws. -/
def callW : ProviderConfig → CallOutcome := fun p =>
  if p.name = "B" then .ok (okResult 404)
  else if p.name = "C" then .ok (okResult 200)
  else .thrown "connect error"

/-- Same oracle except it answers differently at `A` (which does not serve
model `"y"`). -/
def callW2 : ProviderConfig → CallOutcome := fun p =>
  if p.name = "A" then .ok (okResult 500) else callW p

/-- A concrete unhealthy snapshot for provider `B` whose cooldown instant
lies far in the future. -/
def staleEntryB : ProviderHealth :=
  { name := "B", healthy := false, consecutiveFailures := 3
    unhealthySince := 50, cooldownUntil := 10000000 }

/-! ## C2 — terminal statuses in [200, 500) and the wildcard-404 soft miss -/

/-- C2: when an attempted provider's call returns a status in `[200, 500)`:
if the status is exactly 404 and the provider lists the wildcard `"*"`, no
success and no failure is recorded and the loop continues with the next
provider (carrying only `isHealthy`'s own state effect); for every other
status in the range, `recordSuccess` is called and the loop returns
immediately with that provider and result. -/
theorem route_terminal_status (call : ProviderConfig → CallOutcome)
    (now : Nat) (model : String) (p : ProviderConfig)
    (rest : List ProviderConfig) (health : HealthState)
    (attempted skipped : List String)
    (hserve : servesModel p model = true)
    (hhealthy : (isHealthy health now p.name).1 = true)
    (r : ProviderResult) (hcall : call p = .ok r)
    (hlo : 200 ≤ r.status) (hhi : r.status < 500) :
    (r.status = 404 ∧ p.models.contains "*" = true →
      routeLoop call now model (p :: rest) health attempted skipped =
        routeLoop call now model rest (isHealthy health now p.name).2
          (attempted ++ [p.name]) skipped) ∧
    (¬ (r.status = 404 ∧ p.models.contains "*" = true) →
      routeLoop call now model (p :: rest) health attempted skipped =
        ({ provider := some p, result := some r
           attempted := attempted ++ [p.name], skipped := skipped
           error := none },
         recordSuccess (isHealthy health now p.name).2 p.name)) := by
  constructor
  · intro hmiss
    exact routeLoop_softMiss call now model p rest health attempted skipped
      hserve hhealthy r hcall hlo hhi hmiss.1 hmiss.2
  · intro hnotmiss
    exact routeLoop_return call now model p rest health attempted skipped
      hserve hhealthy r hcall hlo hhi hnotmiss

/-- C2 witness: in the scenario `B`, `C` wildcard and model `"y"`, provider
`B`'s 404 with a fresh tracker is a soft miss (loop moves on), while `C`'s
200 returns immediately with success recorded. -/
theorem route_terminal_status_witness :
    (routeLoop callW 100 "y" [pB, pC] (initHealth [pA, pB, pC]) [] [] =
      routeLoop callW 100 "y" [pC]
        (isHealthy (initHealth [pA, pB, pC]) 100 "B").2 ["B"] []) ∧
    (routeLoop callW 100 "y" [pC]
        (isHealthy (initHealth [pA, pB, pC]) 100 "B").2 ["B"] [] =
      ({ provider := some pC, result := some (okResult 200)
         attempted := ["B", "C"], skipped := [], error := none },
       recordSuccess (isHealthy (isHealthy (initHealth [pA, pB, pC]) 100
         "B").2 100 "C").2 "C")) := by
  constructor
  · exact (route_terminal_status callW 100 "y" pB [pC]
      (initHealth [pA, pB, pC]) [] [] (by decide) (by decide)
      (okResult 404) (by decide) (by decide) (by decide)).1
      ⟨rfl, by decide⟩
  · have h := (route_terminal_status callW 100 "y" pC []
      (isHealthy (initHealth [pA, pB, pC]) 100 "B").2 ["B"] [] (by decide)
      (by decide) (okResult 200) (by decide) (by decide) (by decide)).2
      (by decide)
    simpa using h

/-! ## C9 — a soft-missed provider stays in `attempted` -/

/-- C9: a wildcard provider taking the 404 soft-miss path had its name
appended to `attempted` before the upstream call, the step reclassifies
nothing as skipped, and the name remains in the final outcome's `attempted`
sequence no matter how the remaining providers fare. -/
theorem softMiss_stays_attempted (call : ProviderConfig → CallOutcome)
    (now : Nat) (model : String) (p : ProviderConfig)
    (rest : List ProviderConfig) (health : HealthState)
    (attempted skipped : List String)
    (hserve : servesModel p model = true)
    (hhealthy : (isHealthy health now p.name).1 = true)
    (r : ProviderResult) (hcall : call p = .ok r)
    (hlo : 200 ≤ r.status) (hhi : r.status < 500)
    (h404 : r.status = 404) (hwild : p.models.contains "*" = true) :
    routeLoop call now model (p :: rest) health attempted skipped =
      routeLoop call now model rest (isHealthy health now p.name).2
        (attempted ++ [p.name]) skipped ∧
    p.name ∈ (routeLoop call now model (p :: rest) health attempted
        skipped).1.attempted := by
  have hstep := routeLoop_softMiss call now model p rest health attempted
    skipped hserve hhealthy r hcall hlo hhi h404 hwild
  refine ⟨hstep, ?_⟩
  rw [hstep]
  obtain ⟨tail, ht⟩ := routeLoop_attempted_extends call now model rest
    (isHealthy health now p.name).2 (attempted ++ [p.name]) skipped
  rw [ht]
  simp

/-- C9 witness: in the `B`/`C` scenario, `B` soft-misses yet `"B"` is in the
final `attempted` list even though `C` handles the request. -/
theorem softMiss_stays_attempted_witness :
    routeLoop callW 100 "y" [pB, pC] (initHealth [pA, pB, pC]) [] [] =
      routeLoop callW 100 "y" [pC]
        (isHealthy (initHealth [pA, pB, pC]) 100 "B").2 ["B"] [] ∧
    "B" ∈ (routeLoop callW 100 "y" [pB, pC] (initHealth [pA, pB, pC])
        [] []).1.attempted := by
  have h := softMiss_stays_attempted callW 100 "y" pB [pC]
    (initHealth [pA, pB, pC]) [] [] (by decide) (by decide)
    (okResult 404) (by decide) (by decide) (by decide) rfl (by decide)
  simpa using h

/-! ## C6 — model and health checks precede any upstream call -/

/-- C6: a provider failing the model check is skipped as `no-model` without
its health being queried (the tracker state is passed on untouched); one
failing the health check is skipped as `unhealthy`; every name in the
outcome's `attempted` belongs to a configured provider that serves the
model; and the outcome never depends on the oracle's answers at providers
that do not serve the model — no upstream call is issued for them. -/
theorem route_checks_precede_attempt (call call2 : ProviderConfig → CallOutcome)
    (now : Nat) (model : String) (p : ProviderConfig)
    (rest providers : List ProviderConfig) (health : HealthState)
    (attempted skipped : List String) :
    (servesModel p model = false →
      routeLoop call now model (p :: rest) health attempted skipped =
        routeLoop call now model rest health attempted
          (skipped ++ [p.name ++ "(no-model)"])) ∧
    (servesModel p model = true → (isHealthy health now p.name).1 = false →
      routeLoop call now model (p :: rest) health attempted skipped =
        routeLoop call now model rest (isHealthy health now p.name).2
          attempted (skipped ++ [p.name ++ "(unhealthy)"])) ∧
    (∀ name ∈ (routeChatCompletions call now providers health
        model).1.attempted,
      ∃ q, q ∈ providers ∧ q.name = name ∧ servesModel q model = true) ∧
    ((∀ q ∈ providers, servesModel q model = true → call q = call2 q) →
      routeChatCompletions call now providers health model =
        routeChatCompletions call2 now providers health model) := by
  refine ⟨?_, ?_, ?_, ?_⟩
  · intro hs
    exact routeLoop_noModel call now model p rest health attempted skipped hs
  · intro hs hh
    exact routeLoop_unhealthy call now model p rest health attempted skipped
      hs hh
  · intro name hmem
    rcases routeLoop_attempted_mem call now model providers health [] [] name
      hmem with h1 | h1
    · simp at h1
    · exact h1
  · intro hagree
    exact routeLoop_call_agree now model providers call call2 health [] []
      hagree

/-- C6 witness: with model `"y"`, provider `A` (serving only `"x"`) is
skipped as `no-model` with the tracker untouched; an unhealthy `B` is
skipped as `unhealthy`; the scenario run's attempted name `"C"` serves the
model; and changing the oracle at the non-serving `A` leaves the outcome
unchanged. -/
theorem route_checks_precede_attempt_witness :
    (routeLoop callW 100 "y" [pA] (initHealth [pA, pB, pC]) [] [] =
      routeLoop callW 100 "y" [] (initHealth [pA, pB, pC]) []
        ["A(no-model)"]) ∧
    (routeLoop callW 100 "y" [pB] [staleEntryB] [] [] =
      routeLoop callW 100 "y" [] (isHealthy [staleEntryB] 100 "B").2 []
        ["B(unhealthy)"]) ∧
    (∃ q, q ∈ [pA, pB, pC] ∧ q.name = "C" ∧ servesModel q "y" = true) ∧
    (routeChatCompletions callW 100 [pA, pB, pC] (initHealth [pA, pB, pC])
        "y" =
      routeChatCompletions callW2 100 [pA, pB, pC] (initHealth [pA, pB, pC])
        "y") := by
  refine ⟨?_, ?_, ?_, ?_⟩
  · exact (route_checks_precede_attempt callW callW2 100 "y" pA [] [pA, pB, pC]
      (initHealth [pA, pB, pC]) [] []).1 (by decide)
  · exact (route_checks_precede_attempt callW callW2 100 "y" pB [] [pA, pB, pC]
      [staleEntryB] [] []).2.1 (by decide) (by decide)
  · exact (route_checks_precede_attempt callW callW2 100 "y" pA [] [pA, pB, pC]
      (initHealth [pA, pB, pC]) [] []).2.2.1 "C" (by decide)
  · exact (route_checks_precede_attempt callW callW2 100 "y" pA [] [pA, pB, pC]
      (initHealth [pA, pB, pC]) [] []).2.2.2 (by decide)

/-! ## C7 — request validation short-circuits before the Router -/

/-- `typeof parsed.model === "string"` as the handler observes it. -/
def isStringVal : Option JsonVal → Bool
  | some (.vstr _) => true
  | _ => false

/-- C7: an oversize body is rejected with 413 before parsing (the outcome
does not depend on the parse function at all); a body that fails JSON
parsing, or whose parsed form lacks a string-valued `model` field, is
rejected with 400. In all three cases the outcome is `.rejected`, i.e. the
Router is never invoked. -/
theorem handleChatCompletions_validation
    (parse parse2 : String → Option ParsedBody) (body : String) :
    (body.length > MAX_BODY_BYTES →
      handleChatCompletions parse "POST" (some body) =
        .rejected 413 "Request body too large" "invalid_request_error" ∧
      handleChatCompletions parse "POST" (some body) =
        handleChatCompletions parse2 "POST" (some body)) ∧
    (body.length ≤ MAX_BODY_BYTES → parse body = none →
      handleChatCompletions parse "POST" (some body) =
        .rejected 400 "Invalid JSON body" "invalid_request_error") ∧
    (∀ parsed : ParsedBody, body.length ≤ MAX_BODY_BYTES →
      parse body = some parsed → isStringVal parsed.model = false →
      handleChatCompletions parse "POST" (some body) =
        .rejected 400 "'model' is required and must be a string"
          "invalid_request_error") := by
  refine ⟨?_, ?_, ?_⟩
  · intro hbig
    constructor
    · simp [handleChatCompletions, hbig]
    · simp [handleChatCompletions, hbig]
  · intro hsize hparse
    have hnot : ¬ body.length > MAX_BODY_BYTES := by omega
    simp [handleChatCompletions, hnot, hparse]
  · intro parsed hsize hparse hmodel
    have hnot : ¬ body.length > MAX_BODY_BYTES := by omega
    cases hm : parsed.model with
    | none => simp [handleChatCompletions, hnot, hparse, hm]
    | some v =>
      cases v with
      | vstr s => simp [isStringVal, hm] at hmodel
      | vother t => simp [handleChatCompletions, hnot, hparse, hm]

/-- A parse oracle that always fails (`JSON.parse` throwing). -/
def parseFail : String → Option ParsedBody := fun _ => none

/-- A parse oracle returning an object with no `model` field. -/
def parseNoModel : String → Option ParsedBody :=
  fun _ => some { model := none, stream := none }

/-- A body one byte over the 1 MB limit. -/
def bigBody : String := String.mk (List.replicate (MAX_BODY_BYTES + 1) 'a')

/-- C7 witness: the oversize body is rejected 413 independently of the parse
oracle; an unparsable small body is rejected 400; a parsed body without a
`model` string is rejected 400. -/
theorem handleChatCompletions_validation_witness :
    (handleChatCompletions parseFail "POST" (some bigBody) =
      .rejected 413 "Request body too large" "invalid_request_error" ∧
     handleChatCompletions parseFail "POST" (some bigBody) =
      handleChatCompletions parseNoModel "POST" (some bigBody)) ∧
    (handleChatCompletions parseFail "POST" (some "nonsense") =
      .rejected 400 "Invalid JSON body" "invalid_request_error") ∧
    (handleChatCompletions parseNoModel "POST" (some "{}") =
      .rejected 400 "'model' is required and must be a string"
        "invalid_request_error") := by
  have hbig : bigBody.length > MAX_BODY_BYTES := by
    simp [bigBody, String.length]
  refine ⟨?_, ?_, ?_⟩
  · exact (handleChatCompletions_validation parseFail parseNoModel bigBody).1
      hbig
  · exact (handleChatCompletions_validation parseFail parseNoModel
      "nonsense").2.1 (by decide) rfl
  · exact (handleChatCompletions_validation parseNoModel parseFail "{}").2.2
      { model := none, stream := none } (by decide) rfl rfl

/-! ## C8 — the idle-stream guard -/

/-- C8: the per-chunk idle timer is 30 seconds; delivering a chunk resets
the deadline to the delivery instant plus the idle interval while passing
the chunk downstream; a pending timer firing at its deadline triggers the
cancellation controller (`aborted`); and on every exit path — normal
completion (`flush`), error or downstream cancellation (both reaching the
transformer's `cancel` hook) — the timer is cleared. -/
theorem streamGuard_idle_timeout (g : GuardState) (t d : Nat) (data : String)
    (events : List StreamEvent) :
    STREAM_IDLE_TIMEOUT_MS = 30000 ∧
    guardStep STREAM_IDLE_TIMEOUT_MS g (.chunk t data) =
      { deadline := some (t + STREAM_IDLE_TIMEOUT_MS), aborted := g.aborted
        delivered := g.delivered ++ [data] } ∧
    (g.deadline = some t →
      guardStep STREAM_IDLE_TIMEOUT_MS g (.timerFire t) =
        { g with deadline := none, aborted := true }) ∧
    ((runGuard STREAM_IDLE_TIMEOUT_MS g events).deadline = some d →
      (runGuard STREAM_IDLE_TIMEOUT_MS g
        (events ++ [.timerFire d])).aborted = true) ∧
    (runGuard STREAM_IDLE_TIMEOUT_MS g
      (events ++ [.flushEnd t])).deadline = none ∧
    (runGuard STREAM_IDLE_TIMEOUT_MS g
      (events ++ [.cancelled t])).deadline = none := by
  refine ⟨rfl, ?_, ?_, ?_, ?_, ?_⟩
  · simp [guardStep, resetTimer]
  · intro hdl
    simp [guardStep, hdl]
  · intro hdl
    simp only [runGuard, List.foldl_append, List.foldl_cons, List.foldl_nil]
    simp only [runGuard] at hdl
    simp [guardStep, hdl]
  · simp only [runGuard, List.foldl_append, List.foldl_cons, List.foldl_nil]
    simp [guardStep]
  · simp only [runGuard, List.foldl_append, List.foldl_cons, List.foldl_nil]
    simp [guardStep]

/-- C8 witness: on a concrete stream that starts at 0 and delivers one chunk
at 5, the deadline resets to 30005; an undisturbed timer firing then aborts;
and flush / cancel endings clear the deadline. -/
theorem streamGuard_idle_timeout_witness :
    guardStep STREAM_IDLE_TIMEOUT_MS
        { deadline := some 7, aborted := false, delivered := ["a"] }
        (.chunk 9 "x") =
      { deadline := some (9 + STREAM_IDLE_TIMEOUT_MS), aborted := false
        delivered := ["a", "x"] } ∧
    guardStep STREAM_IDLE_TIMEOUT_MS
        { deadline := some 7, aborted := false, delivered := ["a"] }
        (.timerFire 7) =
      { deadline := none, aborted := true, delivered := ["a"] } ∧
    (runGuard STREAM_IDLE_TIMEOUT_MS initGuard
      ([.start 0, .chunk 5 "x"] ++ [.timerFire 30005])).aborted = true ∧
    (runGuard STREAM_IDLE_TIMEOUT_MS initGuard
      ([.start 0, .chunk 5 "x"] ++ [.flushEnd 6])).deadline = none ∧
    (runGuard STREAM_IDLE_TIMEOUT_MS initGuard
      ([.start 0, .chunk 5 "x"] ++ [.cancelled 6])).deadline = none := by
  have h9 := streamGuard_idle_timeout
    { deadline := some 7, aborted := false, delivered := ["a"] } 9 30005 "x"
    [.start 0, .chunk 5 "x"]
  have h7 := streamGuard_idle_timeout
    { deadline := some 7, aborted := false, delivered := ["a"] } 7 30005 "x"
    [.start 0, .chunk 5 "x"]
  have h6 := streamGuard_idle_timeout initGuard 6 30005 "x"
    [.start 0, .chunk 5 "x"]
  exact ⟨h9.2.1, h7.2.2.1 rfl, h6.2.2.2.1 (by decide), h6.2.2.2.2.1,
    h6.2.2.2.2.2⟩

/-! ## Dedup lemmas for listAllModels -/

theorem addModels_append (xs ys : List ModelEntry) :
    ∀ (seen : List String) (acc : List ModelEntry),
      addModels seen acc (xs ++ ys) =
        addModels (addModels seen acc xs).1 (addModels seen acc xs).2 ys := by
  induction xs with
  | nil => intro seen acc; rfl
  | cons m ms ih =>
    intro seen acc
    by_cases hc : seen.contains m.id = true
    · simp only [List.cons_append, addModels, hc, if_true]
      exact ih _ _
    · have hc' : seen.contains m.id = false := by simpa using hc
      simp only [List.cons_append, addModels, hc', Bool.false_eq_true,
        if_false]
      exact ih _ _

theorem addModels_sub (l : List ModelEntry) :
    ∀ (seen : List String) (acc : List ModelEntry),
      ∃ tail, (addModels seen acc l).2 = acc ++ tail := by
  induction l with
  | nil => intro seen acc; exact ⟨[], by simp [addModels]⟩
  | cons m ms ih =>
    intro seen acc
    by_cases hc : seen.contains m.id = true
    · obtain ⟨tail, ht⟩ := ih seen acc
      exact ⟨tail, by simp only [addModels, hc, if_true]; exact ht⟩
    · have hc' : seen.contains m.id = false := by simpa using hc
      obtain ⟨tail, ht⟩ := ih (m.id :: seen) (acc ++ [m])
      refine ⟨[m] ++ tail, ?_⟩
      simp only [addModels, hc', Bool.false_eq_true, if_false]
      rw [ht, List.append_assoc]

theorem addModels_first_wins (l : List ModelEntry) :
    ∀ (seen : List String) (acc : List ModelEntry) (m : ModelEntry),
      m ∈ (addModels seen acc l).2 →
      m ∈ acc ∨ (seen.contains m.id = false ∧
        l.find? (fun x => x.id = m.id) = some m) := by
  induction l with
  | nil =>
    intro seen acc m hm
    simp only [addModels] at hm
    exact Or.inl hm
  | cons m0 ms ih =>
    intro seen acc m hm
    by_cases hc : seen.contains m0.id = true
    · simp only [addModels, hc, if_true] at hm
      rcases ih seen acc m hm with h1 | ⟨h2, h3⟩
      · exact Or.inl h1
      · right
        refine ⟨h2, ?_⟩
        have hne : ¬ (m0.id = m.id) := by
          intro he
          rw [he, h2] at hc
          cases hc
        rw [List.find?_cons_of_neg _ (by simpa using hne)]
        exact h3
    · have hc' : seen.contains m0.id = false := by simpa using hc
      simp only [addModels, hc', Bool.false_eq_true, if_false] at hm
      rcases ih (m0.id :: seen) (acc ++ [m0]) m hm with h1 | ⟨h2, h3⟩
      · rcases List.mem_append.mp h1 with ha | hb
        · exact Or.inl ha
        · have hm0 : m = m0 := by simpa using hb
          subst hm0
          right
          exact ⟨hc', by rw [List.find?_cons_of_pos _ (by simp)]⟩
      · have hcons : (m.id == m0.id || seen.contains m.id) = false := by
          simpa [List.contains_cons] using h2
        have hne : ¬ (m0.id = m.id) := by
          intro he
          simp [he] at hcons
        have hseen : seen.contains m.id = false := by
          rcases Bool.or_eq_false_iff.mp hcons with ⟨_, h⟩
          exact h
        right
        refine ⟨hseen, ?_⟩
        rw [List.find?_cons_of_neg _ (by simpa using hne)]
        exact h3

theorem addModels_nodup (l : List ModelEntry) :
    ∀ (seen : List String) (acc : List ModelEntry),
      (acc.map (fun m => m.id)).Nodup →
      (∀ m ∈ acc, seen.contains m.id = true) →
      ((addModels seen acc l).2.map (fun m => m.id)).Nodup := by
  induction l with
  | nil =>
    intro seen acc h1 _
    simpa [addModels] using h1
  | cons m0 ms ih =>
    intro seen acc h1 h2
    by_cases hc : seen.contains m0.id = true
    · simp only [addModels, hc, if_true]
      exact ih seen acc h1 h2
    · have hc' : seen.contains m0.id = false := by simpa using hc
      simp only [addModels, hc', Bool.false_eq_true, if_false]
      apply ih (m0.id :: seen) (acc ++ [m0])
      · have hnotin : m0.id ∉ acc.map (fun m => m.id) := by
          intro hin
          obtain ⟨m, hm, hid⟩ := List.mem_map.mp hin
          have hmc := h2 m hm
          rw [hid, hc'] at hmc
          cases hmc
        rw [List.map_append, List.nodup_append]
        refine ⟨h1, by simp, ?_⟩
        intro a ha hb
        simp at hb
        rw [hb] at ha
        exact hnotin ha
      · intro m hm
        rcases List.mem_append.mp hm with ha | hb
        · have hmc := h2 m ha
          have hmem : m.id ∈ seen := by simpa using hmc
          simp [List.contains_cons]
          exact Or.inr hmem
        · have hm0 : m = m0 := by simpa using hb
          subst hm0
          simp [List.contains_cons]

theorem addModels_complete (l : List ModelEntry) :
    ∀ (seen : List String) (acc : List ModelEntry) (m : ModelEntry),
      m ∈ l →
      seen.contains m.id = true ∨
        ∃ m', m' ∈ (addModels seen acc l).2 ∧ m'.id = m.id := by
  induction l with
  | nil => intro seen acc m hm; cases hm
  | cons m0 ms ih =>
    intro seen acc m hm
    by_cases hc : seen.contains m0.id = true
    · simp only [addModels, hc, if_true]
      rcases List.mem_cons.mp hm with he | hin
      · subst he
        exact Or.inl hc
      · exact ih seen acc m hin
    · have hc' : seen.contains m0.id = false := by simpa using hc
      simp only [addModels, hc', Bool.false_eq_true, if_false]
      rcases List.mem_cons.mp hm with he | hin
      · subst he
        right
        obtain ⟨tail, ht⟩ := addModels_sub ms (m.id :: seen) (acc ++ [m])
        exact ⟨m, by rw [ht]; simp, rfl⟩
      · rcases ih (m0.id :: seen) (acc ++ [m0]) m hin with hcase | hcase
        · by_cases hid : m.id = m0.id
          · right
            obtain ⟨tail, ht⟩ :=
              addModels_sub ms (m0.id :: seen) (acc ++ [m0])
            exact ⟨m0, by rw [ht]; simp, hid.symm⟩
          · left
            simp only [List.contains_cons] at hcase
            rcases Bool.or_eq_true_iff.mp hcase with h | h
            · exact absurd (by simpa using h) hid
            · exact h
        · exact Or.inr hcase

theorem dedupResults_eq (results : List (Option (List ModelEntry))) :
    ∀ (seen : List String) (acc : List ModelEntry),
      dedupResults seen acc results =
        (addModels seen acc ((results.filterMap id).flatten)).2 := by
  induction results with
  | nil => intro seen acc; rfl
  | cons o rest ih =>
    intro o1 o2
    cases o with
    | none =>
      simp only [dedupResults]
      rw [ih]
      simp
    | some ms =>
      simp only [dedupResults]
      rw [ih]
      have hfm : ((some ms :: rest).filterMap id).flatten =
          ms ++ (rest.filterMap id).flatten := by simp
      rw [hfm, addModels_append]

/-- `find?` on a list containing exactly one match returns that match, in
whatever position it sits. -/
theorem find?_of_unique {β : Type} (p : β → Bool) :
    ∀ (l : List β) (x : β), x ∈ l → p x = true →
      (∀ y ∈ l, p y = true → y = x) → l.find? p = some x := by
  intro l
  induction l with
  | nil => intro x hx; cases hx
  | cons h t ih =>
    intro x hx hpx huniq
    by_cases hp : p h = true
    · rw [List.find?_cons_of_pos _ hp]
      exact congrArg some (huniq h (List.mem_cons_self h t) hp)
    · rw [List.find?_cons_of_neg _ hp]
      have hxt : x ∈ t := by
        rcases List.mem_cons.mp hx with he | ht
        · subst he; exact absurd hpx hp
        · exact ht
      exact ih x hxt hpx (fun y hy hpy => huniq y (List.mem_cons_of_mem _ hy)
        hpy)

/-- `Promise.allSettled` reassembly is completion-order independent: any
arrival order of the indexed outcomes reassembles to the original results
array. -/
theorem settleAll_perm {α : Type} (l : List α) (arrival : List (Nat × α))
    (d : α) (hperm : arrival.Perm l.enum) :
    settleAll l.length arrival d = l := by
  apply List.ext_getElem
  · simp [settleAll]
  · intro n h1 h2
    have hn : n < l.length := h2
    have hfind : arrival.find? (fun c => c.1 = n) = some (n, l.get ⟨n, hn⟩) := by
      apply find?_of_unique
      · apply hperm.mem_iff.mpr
        apply List.mem_enum_iff_getElem?.mpr
        simp [List.getElem?_eq_getElem hn]
      · simp
      · intro y hy hpy
        have hyenum := hperm.mem_iff.mp hy
        have hyget := List.mem_enum_iff_getElem?.mp hyenum
        have hy1 : y.1 = n := by simpa using hpy
        rw [hy1] at hyget
        rw [List.getElem?_eq_getElem hn] at hyget
        have hy2 : y.2 = l.get ⟨n, hn⟩ := by
          simpa using hyget.symm
        calc y = (y.1, y.2) := rfl
        _ = (n, l.get ⟨n, hn⟩) := by rw [hy1, hy2]
    simp only [settleAll, List.getElem_map, List.getElem_range, hfind]
    simp [List.get_eq_getElem]

/-! ## C5 — listAllModels dedup, config-order wins, arrival-order invariant -/

/-- C5: the aggregated model list has pairwise-distinct ids; every entry kept
is the first entry bearing its id in the concatenation, in configuration
order, of the healthy providers' fulfilled listings (so on an id collision
the earlier-configured provider wins); every reported model id is
represented; and the result is invariant under any permutation of the order
in which the concurrent fetches complete. -/
theorem listAllModels_dedup (fetch : ProviderConfig → Option (List ModelEntry))
    (now : Nat) (providers : List ProviderConfig) (health : HealthState) :
    ((listAllModels fetch now providers health).1.map
        (fun m => m.id)).Nodup ∧
    (∀ m ∈ (listAllModels fetch now providers health).1,
      ((((filterHealthy health now providers).1.map fetch).filterMap
        id).flatten).find? (fun x => x.id = m.id) = some m) ∧
    (∀ m ∈ (((filterHealthy health now providers).1.map fetch).filterMap
        id).flatten,
      ∃ m', m' ∈ (listAllModels fetch now providers health).1 ∧
        m'.id = m.id) ∧
    (∀ arrival : List (Nat × Option (List ModelEntry)),
      arrival.Perm ((filterHealthy health now providers).1.map fetch).enum →
      listAllModelsWithArrival now providers health arrival =
        listAllModels fetch now providers health) := by
  have hres : (listAllModels fetch now providers health).1 =
      (addModels [] []
        ((((filterHealthy health now providers).1.map fetch).filterMap
          id).flatten)).2 := by
    simp only [listAllModels]
    exact dedupResults_eq _ [] []
  refine ⟨?_, ?_, ?_, ?_⟩
  · rw [hres]
    exact addModels_nodup _ [] [] (by simp) (by simp)
  · intro m hm
    rw [hres] at hm
    rcases addModels_first_wins _ [] [] m hm with h1 | ⟨_, h3⟩
    · cases h1
    · exact h3
  · intro m hm
    rcases addModels_complete _ [] [] m hm with h1 | ⟨m', hm', hid⟩
    · simp at h1
    · exact ⟨m', by rw [hres]; exact hm', hid⟩
  · intro arrival hperm
    have harr : settleAll (filterHealthy health now providers).1.length
        arrival none = (filterHealthy health now providers).1.map fetch := by
      have h := settleAll_perm ((filterHealthy health now providers).1.map
        fetch) arrival none hperm
      simpa using h
    show (dedupResults [] []
        (settleAll (filterHealthy health now providers).1.length arrival
          none),
      (filterHealthy health now providers).2) = _
    rw [harr]
    rfl

/-- A model entry with id `"m"` as reported by provider `B`. -/
def mB : ModelEntry := { id := "m", object := "model", owned_by := "B" }

/-- A model entry with the same id `"m"` as reported by provider `C`. -/
def mC : ModelEntry := { id := "m", object := "model", owned_by := "C" }

/-- Fetch oracle: `B` and `C` both report id `"m"` (different payloads). -/
def fetchW : ProviderConfig → Option (List ModelEntry) := fun p =>
  if p.name = "B" then some [mB]
  else if p.name = "C" then some [mC] else none

/-- C5 witness: with healthy providers `B` before `C` both reporting id
`"m"`, the aggregated ids are distinct, the kept entry for `"m"` is `B`'s,
`C`'s entry is represented by id, and delivering `C`'s fetch before `B`'s
leaves the result unchanged. -/
theorem listAllModels_dedup_witness :
    ((listAllModels fetchW 100 [pB, pC] (initHealth [pB, pC])).1.map
        (fun m => m.id)).Nodup ∧
    ((((filterHealthy (initHealth [pB, pC]) 100 [pB, pC]).1.map
        fetchW).filterMap id).flatten).find? (fun x => x.id = mB.id) =
      some mB ∧
    (∃ m', m' ∈ (listAllModels fetchW 100 [pB, pC]
        (initHealth [pB, pC])).1 ∧ m'.id = mC.id) ∧
    listAllModelsWithArrival 100 [pB, pC] (initHealth [pB, pC])
        [(1, some [mC]), (0, some [mB])] =
      listAllModels fetchW 100 [pB, pC] (initHealth [pB, pC]) := by
  have h := listAllModels_dedup fetchW 100 [pB, pC] (initHealth [pB, pC])
  refine ⟨h.1, ?_, ?_, ?_⟩
  · exact h.2.1 mB (by decide)
  · exact h.2.2.1 mC (by decide)
  · exact h.2.2.2 [(1, some [mC]), (0, some [mB])] (by decide)

end Synapse
